import Mathlib

/-!
Verification development for the appraiseai-api repository (src/api/pipeline.py,
src/api/main.py).

The repository is a two-stage pipeline: an identification remote call, then a
listings-search remote call, fronted by a FastAPI endpoint.  The only local
logic is price-text parsing (`parse_price_any`), query construction inside
`LuxuryPipeline.search_listings`, the catch-and-degrade boundary around the
listings call, and the endpoint's content-type check and response shaping.

Remote calls (the OpenAI client) are modelled as parameters of type
`Except PyExc _`: the caller supplies either the parsed structured output of
the call or the exception it raised (this also covers `json.loads` failures,
which occur inside the same `try` block where one exists).

Python `re.search` on the six price patterns of `parse_price_any` is embedded
directly.  Every pattern has the form `(alt1|alt2|...)\s*(amount)` where each
alternative is a fixed case-insensitive literal except USD's `US\s?\$`, and
`amount` is `[0-9][0-9,]*(?:\.[0-9]{2})?` (JPY: without the fraction).  For
these patterns backtracking never changes the outcome: at any start position
at most one alternative of the marker group can match (the alternatives
disagree on some fixed character position), `\s*` followed by a digit is
deterministic (a whitespace character is never a digit), and shortening the
greedy `[0-9,]*` can never make the optional `\.[0-9]{2}` match (the freed
character is a digit or comma, never a dot).  Hence the matcher below scans
start positions left to right and at each position runs the deterministic
first-alternative/greedy match, which is exactly `re.search`'s result.
-/

/-- Python `\s` for ASCII: space, tab, newline, carriage return, vertical tab,
form feed.  (Unicode whitespace is not modelled; no input in this development
uses it.) -/
def isSpaceP (c : Char) : Bool :=
  c == ' ' || c == '\t' || c == '\n' || c == '\r' || c == '\x0b' || c == '\x0c'

/-- Case-sensitive initial-segment test: `leadsWith pat l` holds when `pat`
is an initial segment of `l`. -/
def leadsWith : List Char → List Char → Bool
  | [], _ => true
  | _ :: _, [] => false
  | p :: ps, c :: cs => p = c && leadsWith ps cs

/-- Case-insensitive literal match: if `pat` (given in lowercase) is an
initial segment of `l` up to ASCII case, return the remainder of `l`. -/
def stripCI : List Char → List Char → Option (List Char)
  | [], l => some l
  | _ :: _, [] => none
  | p :: ps, c :: cs => if c.toLower = p then stripCI ps cs else none

/-- Match a single literal symbol character (currency signs are unaffected by
`re.IGNORECASE`). -/
def matchSym (sym : Char) : List Char → Option (List Char)
  | [] => none
  | c :: t => if c = sym then some t else none

/-- The alternative `US\s?\$` of the USD pattern: `US` (case-insensitive),
at most one whitespace character, then `$`. -/
def matchUSDollar (l : List Char) : Option (List Char) :=
  match stripCI ['u', 's'] l with
  | none => none
  | some r =>
    match r with
    | [] => none
    | c :: t => if isSpaceP c then matchSym '$' t else matchSym '$' r

/-- Marker group `(USD|US\s?\$|\$)`: the alternatives in pattern order.  (At
any one position at most one alternative can match, so trying them in order
without backtracking is the regex engine's behaviour.) -/
def markerUSD (l : List Char) : Option (List Char) :=
  match stripCI ['u', 's', 'd'] l with
  | some r => some r
  | none =>
    match matchUSDollar l with
    | some r => some r
    | none => matchSym '$' l

/-- Marker group `(EUR|€)`. -/
def markerEUR (l : List Char) : Option (List Char) :=
  match stripCI ['e', 'u', 'r'] l with
  | some r => some r
  | none => matchSym '€' l

/-- Marker group `(GBP|£)`. -/
def markerGBP (l : List Char) : Option (List Char) :=
  match stripCI ['g', 'b', 'p'] l with
  | some r => some r
  | none => matchSym '£' l

/-- Marker group `(CAD|C\$)`. -/
def markerCAD (l : List Char) : Option (List Char) :=
  match stripCI ['c', 'a', 'd'] l with
  | some r => some r
  | none =>
    match stripCI ['c'] l with
    | some r => matchSym '$' r
    | none => none

/-- Marker group `(AUD|A\$)`. -/
def markerAUD (l : List Char) : Option (List Char) :=
  match stripCI ['a', 'u', 'd'] l with
  | some r => some r
  | none =>
    match stripCI ['a'] l with
    | some r => matchSym '$' r
    | none => none

/-- Marker group `(JPY|¥)`. -/
def markerJPY (l : List Char) : Option (List Char) :=
  match stripCI ['j', 'p', 'y'] l with
  | some r => some r
  | none => matchSym '¥' l

/-- `[0-9]` or `,`, the characters of the greedy body `[0-9,]*`. -/
def isDigitOrComma (c : Char) : Bool := c.isDigit || c == ','

/-- Capture group 2 of a price pattern at the current position:
`[0-9][0-9,]*(?:\.[0-9]{2})?` when `withFrac`, `[0-9][0-9,]*` (JPY) otherwise.
Returns the captured text. -/
def matchAmount (withFrac : Bool) (l : List Char) : Option (List Char) :=
  match l with
  | [] => none
  | c :: cs =>
    if c.isDigit then
      let body := cs.takeWhile isDigitOrComma
      let rest := cs.dropWhile isDigitOrComma
      if withFrac then
        match rest with
        | '.' :: d1 :: d2 :: _ =>
          if d1.isDigit && d2.isDigit then some (c :: body ++ ['.', d1, d2])
          else some (c :: body)
        | _ => some (c :: body)
      else some (c :: body)
    else none

/-- Attempt the whole pattern `marker` + `\s*` + amount at one start
position; returns capture group 2 on success. -/
def tryAt (mk : List Char → Option (List Char)) (withFrac : Bool)
    (l : List Char) : Option (List Char) :=
  match mk l with
  | none => none
  | some r => matchAmount withFrac (r.dropWhile isSpaceP)

/-- `re.search` over the text: try each start position left to right, return
capture group 2 of the first position where the whole pattern matches. -/
def searchPat (mk : List Char → Option (List Char)) (withFrac : Bool) :
    List Char → Option (List Char)
  | [] => none
  | c :: t =>
    match tryAt mk withFrac (c :: t) with
    | some g => some g
    | none => searchPat mk withFrac t

/-- Numeric value of a digit list read in base 10. -/
def digitsVal (l : List Char) : Nat :=
  l.foldl (fun acc c => 10 * acc + (c.toNat - '0'.toNat)) 0

/-- Python `float()` on the strings this program can produce: an optional
integer digit run, optionally a dot and a fraction digit run, at least one
digit overall.  (Signs, exponents, underscores, `inf`/`nan` never occur in a
captured group with the commas removed, so they are not modelled.)  Numeric
values are rationals, the standard shallow embedding of the floats arising
here. -/
def pyFloat (l : List Char) : Option ℚ :=
  let ip := l.takeWhile Char.isDigit
  let rest := l.dropWhile Char.isDigit
  match rest with
  | [] => if ip.isEmpty then none else some (Rat.divInt (digitsVal ip) 1)
  | c :: fr =>
    if c = '.' then
      if fr.all Char.isDigit && !(ip.isEmpty && fr.isEmpty) then
        some (Rat.divInt (digitsVal ip * 10 ^ fr.length + digitsVal fr)
          (10 ^ fr.length))
      else none
    else none

/-- The amount field of a parse result: the numeric value when `float()`
succeeds, the raw comma-stripped string when it raises `ValueError`
(the `except ValueError` branch of `parse_price_any`). -/
inductive Amount where
  | num : ℚ → Amount
  | raw : String → Amount
deriving DecidableEq, Repr

/-- Result dictionary `{"currency": cur, "amount": amt}` of
`parse_price_any`. -/
structure ParsedPrice where
  currency : String
  amount : Amount
deriving DecidableEq, Repr

/-- One iteration of the pattern loop of `parse_price_any`: search the text
with the pattern, strip commas from group 2, convert with `float()`. -/
def parseWith (mk : List Char → Option (List Char)) (withFrac : Bool)
    (cur : String) (l : List Char) : Option ParsedPrice :=
  match searchPat mk withFrac l with
  | none => none
  | some g =>
    let amt := g.filter (fun c => !(c == ','))
    match pyFloat amt with
    | some q => some ⟨cur, Amount.num q⟩
    | none => some ⟨cur, Amount.raw (String.mk amt)⟩

/-- `parse_price_any` (src/api/pipeline.py, lines 16–35): empty (falsy) text
returns `None`; otherwise the six currency patterns are tried in order and
the first matching one yields the result. -/
def parse_price_any (s : String) : Option ParsedPrice :=
  if s.data = [] then none
  else
    match parseWith markerUSD true "USD" s.data with
    | some r => some r
    | none =>
      match parseWith markerEUR true "EUR" s.data with
      | some r => some r
      | none =>
        match parseWith markerGBP true "GBP" s.data with
        | some r => some r
        | none =>
          match parseWith markerCAD true "CAD" s.data with
          | some r => some r
          | none =>
            match parseWith markerAUD true "AUD" s.data with
            | some r => some r
            | none =>
              match parseWith markerJPY false "JPY" s.data with
              | some r => some r
              | none => none

/-- A Python exception as observed by the `except` handler: its type name
(`type(e).__name__`) and its message (`str(e)`). -/
structure PyExc where
  name : String
  msg : String
deriving DecidableEq, Repr

/-- The `attributes` record of the identification schema
(`IDENT_SCHEMA_FORMAT`). -/
structure Attributes where
  primary_color : String
  material : String
  metal_finish : String
  closure : String
  notable_markings : String
deriving DecidableEq, Repr

/-- The `typical_price_range_usd` record of the identification schema. -/
structure PriceRange where
  low : ℚ
  high : ℚ
deriving DecidableEq, Repr

/-- The identification result: the object `json.loads` returns from the
identification call, conforming to `IDENT_SCHEMA_FORMAT` (all fields
required, no additional properties).  Schema numbers are modelled as ℚ. -/
structure Ident where
  brand : String
  model : String
  category : String
  aliases : List String
  confidence : ℚ
  attributes : Attributes
  typical_price_range_usd : PriceRange
  estimated_market_value_usd : ℚ
  suggested_queries : List String
  rationale : String
deriving DecidableEq, Repr

/-- A listing record of `LISTINGS_SCHEMA_FORMAT` as returned by the remote
call, before local annotation. -/
structure RawListing where
  title : String
  url : String
  source : String
  price_text : String
  date_text : String
  notes : String
deriving DecidableEq, Repr

/-- The parsed output of the listings-search remote call
(`LISTINGS_SCHEMA_FORMAT`): `queries_used` plus listing records. -/
structure RawListings where
  queries_used : List String
  results : List RawListing
deriving DecidableEq, Repr

/-- A listing record after `search_listings` adds `parsed_price`. -/
structure AnnListing extends RawListing where
  parsed_price : Option ParsedPrice
deriving DecidableEq, Repr

/-- The dictionary `search_listings` returns: on success the remote data with
annotated results (and no error key, modelled as `error = none`); on failure
the locally built queries, no results, and the error string. -/
structure SearchOut where
  queries_used : List String
  results : List AnnListing
  error : Option String
deriving DecidableEq, Repr

/-- Python `str.strip()` (ASCII whitespace; no input in this development
carries Unicode whitespace): drop whitespace from both ends. -/
def pyStrip (s : String) : String :=
  String.mk (((s.data.dropWhile isSpaceP).reverse.dropWhile isSpaceP).reverse)

namespace LuxuryPipeline

/-- The fallback queries of `search_listings` (src/api/pipeline.py, lines
163–165): two f-string interpolations from brand/model/category, plus a third
from the first alias when the alias list is non-empty.  `brand` etc. are the
stripped fields (`(ident.get("brand") or "").strip()`; with the schema's
required string fields, `x or ""` is the identity). -/
def fallback_queries (ident : Ident) : List String :=
  let brand := pyStrip ident.brand
  let model := pyStrip ident.model
  let category := pyStrip ident.category
  [brand ++ " \"" ++ model ++ "\" price",
   brand ++ " \"" ++ model ++ "\" " ++ category ++ " listing"] ++
  (match ident.aliases with
   | [] => []
   | a :: _ => [brand ++ " \"" ++ a ++ "\" " ++ category ++ " listing"])

/-- Query construction of `search_listings` (src/api/pipeline.py, lines
162–167): up to 8 suggested queries, the fallbacks, keep only truthy
(non-empty) strings, truncate to 10. -/
def build_queries (ident : Ident) : List String :=
  ((ident.suggested_queries.take 8 ++ fallback_queries ident).filter
    (fun q => !(q == ""))).take 10

/-- The error string built by the `except` handler of `search_listings`:
`f"web_search unavailable or failed: {type(e).__name__}: {e}"`. -/
def searchErrMsg (e : PyExc) : String :=
  "web_search unavailable or failed: " ++ e.name ++ ": " ++ e.msg

/-- `LuxuryPipeline.search_listings` (src/api/pipeline.py, lines 156–194).
The remote call and the `json.loads` of its output — everything in the `try`
block that can raise — are modelled by the `remote` parameter: either the
parsed structured output or the exception raised.  On success each result is
annotated with `parsed_price`; on any exception the local query list, an
empty result list, and the error string are returned. -/
def search_listings (ident : Ident) (remote : Except PyExc RawListings) :
    SearchOut :=
  let queries := build_queries ident
  match remote with
  | .ok data =>
    { queries_used := data.queries_used,
      results := data.results.map
        (fun r => { r with parsed_price := parse_price_any r.price_text }),
      error := none }
  | .error e =>
    { queries_used := queries, results := [], error := some (searchErrMsg e) }

/-- The combined object `LuxuryPipeline.run` returns. -/
structure RunOut where
  identification : Ident
  listings : SearchOut
deriving DecidableEq, Repr

/-- `LuxuryPipeline.run` (src/api/pipeline.py, lines 196–199): identification
first, its result fed to the listings search, both returned together.  The
identification remote call has no failure boundary, so its exception
propagates as the exception of `run`; `search_listings` is total. -/
def run (identR : Except PyExc Ident) (searchR : Except PyExc RawListings) :
    Except PyExc RunOut :=
  match identR with
  | .error e => .error e
  | .ok ident => .ok ⟨ident, search_listings ident searchR⟩

end LuxuryPipeline

/-- Observable effects of the `predict` endpoint, in order: reading the
uploaded body, issuing the identification remote call, issuing the
listings-search remote call. -/
inductive Effect where
  | readBody
  | identCall
  | searchCall
deriving DecidableEq, Repr

/-- How a request to `predict` can fail: an `HTTPException` raised locally,
or an unhandled Python exception escaping the pipeline (a server error). -/
inductive PredictErr where
  | http : Nat → String → PredictErr
  | exc : PyExc → PredictErr
deriving DecidableEq, Repr

/-- An entry of `similar_listings` in the endpoint response
(src/api/main.py, lines 51–60). -/
structure FrontListing where
  id : String
  title : String
  price_text : String
  url : String
  source : String
deriving DecidableEq, Repr

/-- The JSON object the endpoint returns on success
(src/api/main.py, lines 44–61).  `float()` applied to a schema number is
modelled as the identity on ℚ. -/
structure FrontResp where
  predicted_price : ℚ
  currency : String
  confidence : ℚ
  brand : String
  model : String
  category : String
  similar_listings : List FrontListing
deriving DecidableEq, Repr

/-- Python's `enumerate` comprehension shaping `similar_listings`: each
listing becomes `{id: str(i), title, price_text, url, source}` with `i` its
zero-based position. -/
def shapeListingsFrom (i : Nat) : List AnnListing → List FrontListing
  | [] => []
  | r :: t =>
    ⟨toString i, r.title, r.price_text, r.url, r.source⟩ ::
      shapeListingsFrom (i + 1) t

/-- Python `s.startswith(pat)`. -/
def pyStartsWith (s pat : String) : Bool :=
  leadsWith pat.data s.data

/-- The content-type acceptance check of the endpoint
(src/api/main.py, line 31): `not image.content_type or not
image.content_type.startswith("image/")` rejects, so a request is accepted
exactly when the declared type is present, truthy, and has the image
media-type text at its head. -/
def acceptCT : Option String → Bool
  | none => false
  | some s => !(s == "") && pyStartsWith s "image/"

/-- The `/predict` endpoint (src/api/main.py, lines 29–61).  The upload's
declared content type is `ct`; the two remote calls are modelled by the
`identR`/`searchR` outcome parameters.  Returns the ordered list of effects
performed together with the HTTP outcome. -/
def predict (ct : Option String) (identR : Except PyExc Ident)
    (searchR : Except PyExc RawListings) :
    List Effect × Except PredictErr FrontResp :=
  if acceptCT ct then
    match LuxuryPipeline.run identR searchR with
    | .error e => ([Effect.readBody, Effect.identCall], .error (.exc e))
    | .ok out =>
      ([Effect.readBody, Effect.identCall, Effect.searchCall],
       .ok { predicted_price := out.identification.estimated_market_value_usd,
             currency := "USD",
             confidence := out.identification.confidence,
             brand := out.identification.brand,
             model := out.identification.model,
             category := out.identification.category,
             similar_listings := shapeListingsFrom 0 out.listings.results })
  else ([], .error (.http 400 "Upload an image file."))

/-- Case-insensitive occurrence: some suffix of the text begins with `pat`
(given in lowercase) up to ASCII case. -/
def containsCI (pat : List Char) : List Char → Bool
  | [] => (stripCI pat []).isSome
  | c :: t => (stripCI pat (c :: t)).isSome || containsCI pat t

/-- A recognized currency marker occurs in the text: one of the four
currency sign characters, or one of the six currency codes
(case-insensitively). -/
def hasMarker (l : List Char) : Bool :=
  l.any (fun c => c == '$' || c == '€' || c == '£' || c == '¥') ||
  containsCI ['u', 's', 'd'] l || containsCI ['e', 'u', 'r'] l ||
  containsCI ['g', 'b', 'p'] l || containsCI ['c', 'a', 'd'] l ||
  containsCI ['a', 'u', 'd'] l || containsCI ['j', 'p', 'y'] l

/-- The text begins with `$`, then optional whitespace, then a digit — a
dollar sign immediately followed by an amount. -/
def dollarAmountHere (l : List Char) : Bool :=
  match l with
  | [] => false
  | c :: t =>
    c == '$' &&
      (match t.dropWhile isSpaceP with
       | [] => false
       | d :: _ => d.isDigit)

/-- Some suffix of the text is a dollar sign followed (after optional
whitespace) by a digit. -/
def hasDollarAmount : List Char → Bool
  | [] => false
  | c :: t => dollarAmountHere (c :: t) || hasDollarAmount t

/-- Sample attributes record used to instantiate universally quantified
theorems on concrete inputs. -/
def sampleAttrs : Attributes :=
  ⟨"black", "leather", "gold", "flap", "not visible"⟩

/-- A sample identification result (the end-to-end scenario of the spec). -/
def sampleIdent : Ident :=
  { brand := "Chanel"
    model := "Classic Flap"
    category := "handbag"
    aliases := ["CF"]
    confidence := Rat.divInt 82 100
    attributes := sampleAttrs
    typical_price_range_usd := ⟨3000, 6000⟩
    estimated_market_value_usd := 4800
    suggested_queries := ["chanel classic flap price", ""]
    rationale := "classic quilted flap bag" }

/-- A sample exception raised by a remote call. -/
def sampleExc : PyExc := ⟨"RuntimeError", "boom"⟩

/-- A sample empty remote listings payload. -/
def sampleRawListings : RawListings := ⟨[], []⟩

/-- The endpoint response produced for `sampleIdent` when the listings call
fails. -/
def sampleResp : FrontResp :=
  { predicted_price := 4800
    currency := "USD"
    confidence := Rat.divInt 82 100
    brand := "Chanel"
    model := "Classic Flap"
    category := "handbag"
    similar_listings := [] }

example : parse_price_any "$1,234.56" = some ⟨"USD", Amount.num (1234.56 : ℚ)⟩ := by
  have h : (1234.56 : ℚ) = Rat.divInt 123456 100 := by rw [Rat.divInt_eq_div]; norm_num
  rw [h]; decide
example : parse_price_any "¥5000" = some ⟨"JPY", Amount.num 5000⟩ := by decide
example : parse_price_any "" = none := by decide
example : parse_price_any "€2.000,00" = some ⟨"EUR", Amount.num 2⟩ := by decide
example : parse_price_any "$10 / €9" = some ⟨"USD", Amount.num 10⟩ := by decide
example : parse_price_any "€9 / $10" = some ⟨"USD", Amount.num 10⟩ := by decide
example : parse_price_any "C$10" = some ⟨"USD", Amount.num 10⟩ := by decide
example : parse_price_any "A$10" = some ⟨"USD", Amount.num 10⟩ := by decide
example : parse_price_any "CAD 10" = some ⟨"CAD", Amount.num 10⟩ := by decide
example : parse_price_any "AUD 10" = some ⟨"AUD", Amount.num 10⟩ := by decide
example : parse_price_any "US$ 55" = some ⟨"USD", Amount.num 55⟩ := by decide
example : parse_price_any "hello" = none := by decide
example : parse_price_any "usd5" = some ⟨"USD", Amount.num 5⟩ := by decide
example : parse_price_any "US $5" = some ⟨"USD", Amount.num 5⟩ := by decide
example : parse_price_any "cad$5" = some ⟨"USD", Amount.num 5⟩ := by decide
example : parse_price_any "eur 9.9" = some ⟨"EUR", Amount.num 9⟩ := by decide
example : parse_price_any "£ 3,000.00" = some ⟨"GBP", Amount.num 3000⟩ := by decide
example : parse_price_any "x ¥1,2,3" = some ⟨"JPY", Amount.num 123⟩ := by decide
example : parse_price_any "A$ 7.77" = some ⟨"USD", Amount.num (Rat.divInt 777 100)⟩ := by decide
example : parse_price_any "jpy12" = some ⟨"JPY", Amount.num 12⟩ := by decide
example : parse_price_any "Price: US 7" = none := by decide
example : parse_price_any "$ .50" = none := by decide
example : parse_price_any "$5.1" = some ⟨"USD", Amount.num 5⟩ := by decide
example : parse_price_any "5.00 USD" = none := by decide
example : parse_price_any "USD" = none := by decide
example : parse_price_any "$" = none := by decide

/-- Every list is a suffix of itself prefixed by one element. -/
lemma suffix_cons_self {α : Type} (c : α) (t : List α) : t <:+ c :: t :=
  ⟨[c], rfl⟩

/-- Inversion of `searchPat`: a successful search exhibits a suffix of the
text on which the marker matches and whose remainder, after the `\s*`,
carries the amount match. -/
lemma searchPat_inv {mk : List Char → Option (List Char)} {wf : Bool} :
    ∀ {l g : List Char}, searchPat mk wf l = some g →
      ∃ l' r, l' <:+ l ∧ mk l' = some r ∧
        matchAmount wf (r.dropWhile isSpaceP) = some g := by
  intro l
  induction l with
  | nil => intro g h; exact Option.noConfusion h
  | cons c t ih =>
    intro g h
    rw [searchPat] at h
    cases htry : tryAt mk wf (c :: t) with
    | some g0 =>
      rw [htry] at h
      injection h with h
      subst h
      rw [tryAt] at htry
      cases hmk : mk (c :: t) with
      | none => rw [hmk] at htry; exact Option.noConfusion htry
      | some r =>
        rw [hmk] at htry
        exact ⟨c :: t, r, List.suffix_refl _, hmk, htry⟩
    | none =>
      rw [htry] at h
      obtain ⟨l', r, hsuf, hmk, hma⟩ := ih h
      exact ⟨l', r, hsuf.trans (suffix_cons_self c t), hmk, hma⟩

/-- If the USD pattern matches the text at all, `parse_price_any` returns a
USD result (the USD pattern is tried first). -/
lemma parse_usd_of_search {s : String} {g : List Char}
    (h : searchPat markerUSD true s.data = some g) :
    ∃ a, parse_price_any s = some ⟨"USD", a⟩ := by
  have hne : s.data ≠ [] := by
    intro he; rw [he] at h; exact Option.noConfusion h
  have hpw : ∃ a, parseWith markerUSD true "USD" s.data = some ⟨"USD", a⟩ := by
    unfold parseWith
    rw [h]
    dsimp only
    cases hp : pyFloat (g.filter fun c => !(c == ',')) with
    | some q => exact ⟨Amount.num q, rfl⟩
    | none => exact ⟨Amount.raw _, rfl⟩
  obtain ⟨a, hpw⟩ := hpw
  refine ⟨a, ?_⟩
  unfold parse_price_any
  rw [if_neg hne, hpw]

/-- At a position whose first character is `$`, the USD marker group matches
via its third alternative. -/
lemma markerUSD_dollar (t : List Char) : markerUSD ('$' :: t) = some t := by
  simp [markerUSD, matchUSDollar, stripCI, matchSym]

/-- A text whose head character is a digit always yields an amount match. -/
lemma matchAmount_digit {wf : Bool} {d : Char} {rest : List Char}
    (hd : d.isDigit = true) : matchAmount wf (d :: rest) ≠ none := by
  simp only [matchAmount, hd, if_true]
  split
  · split
    · split <;> simp
    · simp
  · simp

/-- A dollar sign followed (after optional whitespace) by a digit makes the
whole USD pattern match at that position. -/
lemma tryAt_usd {l : List Char} (h : dollarAmountHere l = true) :
    tryAt markerUSD true l ≠ none := by
  cases l with
  | nil => exact absurd h (by decide)
  | cons c t =>
    rw [dollarAmountHere] at h
    rw [Bool.and_eq_true] at h
    obtain ⟨hc, hd⟩ := h
    have hc' : c = '$' := by simpa using hc
    subst hc'
    rw [tryAt, markerUSD_dollar]
    show matchAmount true (List.dropWhile isSpaceP t) ≠ none
    cases hdw : t.dropWhile isSpaceP with
    | nil =>
      rw [hdw] at hd
      exact absurd hd (by decide)
    | cons d rest =>
      rw [hdw] at hd
      exact matchAmount_digit (by simpa using hd)

/-- A position where the pattern matches makes the whole search succeed. -/
lemma searchPat_of_suffix {mk : List Char → Option (List Char)} {wf : Bool} :
    ∀ {l c t}, (c :: t) <:+ l → tryAt mk wf (c :: t) ≠ none →
      searchPat mk wf l ≠ none := by
  intro l
  induction l with
  | nil =>
    intro c t hsuf _
    obtain ⟨pre, hpre⟩ := hsuf
    exact absurd (List.append_eq_nil.mp hpre).2 (by simp)
  | cons a t' ih =>
    intro c t hsuf htry
    obtain ⟨pre, hpre⟩ := hsuf
    rw [searchPat]
    cases hat : tryAt mk wf (a :: t') with
    | some g => simp
    | none =>
      cases pre with
      | nil =>
        simp only [List.nil_append] at hpre
        rw [hpre] at htry
        exact absurd hat htry
      | cons p ps =>
        injection hpre with h1 h2
        exact ih ⟨ps, h2⟩ htry

/-- Extract the dollar-amount suffix asserted by `hasDollarAmount`. -/
lemma hasDollarAmount_exists : ∀ {l : List Char}, hasDollarAmount l = true →
    ∃ t, ('$' :: t) <:+ l ∧ dollarAmountHere ('$' :: t) = true := by
  intro l
  induction l with
  | nil => intro h; exact absurd h (by decide)
  | cons c t' ih =>
    intro h
    rw [hasDollarAmount] at h
    rw [Bool.or_eq_true] at h
    rcases h with hhere | htail
    · have hc : c = '$' := by
        rw [dollarAmountHere] at hhere
        rw [Bool.and_eq_true] at hhere
        simpa using hhere.1
      subst hc
      exact ⟨t', List.suffix_refl _, hhere⟩
    · obtain ⟨t, hsuf, hhere⟩ := ih htail
      exact ⟨t, hsuf.trans (suffix_cons_self c t'), hhere⟩

/-- A dollar sign followed by an amount anywhere in the text forces a USD
parse result. -/
lemma parse_usd_of_dollarAmount {s : String}
    (h : hasDollarAmount s.data = true) :
    ∃ a, parse_price_any s = some ⟨"USD", a⟩ := by
  obtain ⟨t, hsuf, hhere⟩ := hasDollarAmount_exists h
  have hne : searchPat markerUSD true s.data ≠ none :=
    searchPat_of_suffix hsuf (tryAt_usd hhere)
  cases hsp : searchPat markerUSD true s.data with
  | none => exact absurd hsp hne
  | some g => exact parse_usd_of_search hsp

/-- A successful case-insensitive strip leaves a suffix of the text. -/
lemma stripCI_isSuffix : ∀ {pat l r : List Char}, stripCI pat l = some r →
    r <:+ l := by
  intro pat
  induction pat with
  | nil =>
    intro l r h
    rw [stripCI] at h
    injection h with h
    exact h ▸ List.suffix_refl _
  | cons p ps ih =>
    intro l r h
    cases l with
    | nil => exact Option.noConfusion h
    | cons c cs =>
      rw [stripCI] at h
      by_cases hc : c.toLower = p
      · rw [if_pos hc] at h
        exact (ih h).trans (suffix_cons_self c cs)
      · rw [if_neg hc] at h
        exact Option.noConfusion h

/-- A successful symbol match means the symbol is the head of the text. -/
lemma matchSym_mem {sym : Char} : ∀ {l r : List Char},
    matchSym sym l = some r → sym ∈ l := by
  intro l r h
  cases l with
  | nil => exact Option.noConfusion h
  | cons c t =>
    rw [matchSym] at h
    by_cases hc : c = sym
    · exact hc ▸ List.mem_cons_self c t
    · rw [if_neg hc] at h; exact Option.noConfusion h

/-- A strip succeeding at position zero witnesses a case-insensitive
occurrence. -/
lemma containsCI_zero {pat l : List Char}
    (h : (stripCI pat l).isSome = true) : containsCI pat l = true := by
  cases l with
  | nil => simpa [containsCI] using h
  | cons c t => simp [containsCI, h]

/-- Case-insensitive occurrence is monotone under suffixes. -/
lemma containsCI_suffix {pat : List Char} : ∀ {l l' : List Char},
    l' <:+ l → containsCI pat l' = true → containsCI pat l = true := by
  intro l
  induction l with
  | nil =>
    intro l' hsuf h
    obtain ⟨pre, hpre⟩ := hsuf
    rw [(List.append_eq_nil.mp hpre).2] at h
    exact h
  | cons a t ih =>
    intro l' hsuf h
    obtain ⟨pre, hpre⟩ := hsuf
    cases pre with
    | nil =>
      simp only [List.nil_append] at hpre
      rw [hpre] at h
      exact h
    | cons p ps =>
      injection hpre with h1 h2
      rw [containsCI]
      rw [ih ⟨ps, h2⟩ h]
      simp

/-- Membership transfers along suffixes. -/
lemma mem_of_suffix {l l' : List Char} {c : Char} (hsuf : l' <:+ l)
    (h : c ∈ l') : c ∈ l := by
  obtain ⟨pre, hpre⟩ := hsuf
  rw [← hpre]
  exact List.mem_append.mpr (Or.inr h)

/-- A successful USD marker match witnesses either a case-insensitive `usd`
occurrence at the match position or a dollar sign in the text there. -/
lemma markerUSD_occ {l r : List Char} (h : markerUSD l = some r) :
    (stripCI ['u', 's', 'd'] l).isSome = true ∨ '$' ∈ l := by
  rw [markerUSD] at h
  cases h1 : stripCI ['u', 's', 'd'] l with
  | some r1 => exact Or.inl (by simp [h1])
  | none =>
    rw [h1] at h
    dsimp only at h
    refine Or.inr ?_
    cases h2 : matchUSDollar l with
    | some r2 =>
      rw [matchUSDollar] at h2
      cases h3 : stripCI ['u', 's'] l with
      | none => rw [h3] at h2; exact Option.noConfusion h2
      | some r3 =>
        rw [h3] at h2
        have hsuf3 : r3 <:+ l := stripCI_isSuffix h3
        cases r3 with
        | nil => exact Option.noConfusion h2
        | cons c3 t3 =>
          dsimp only at h2
          by_cases hs : isSpaceP c3 = true
          · rw [if_pos hs] at h2
            exact mem_of_suffix ((suffix_cons_self c3 t3).trans hsuf3)
              (matchSym_mem h2)
          · rw [if_neg hs] at h2
            exact mem_of_suffix hsuf3 (matchSym_mem h2)
    | none =>
      rw [h2] at h
      dsimp only at h
      exact matchSym_mem h

/-- A successful EUR marker match witnesses `eur` or `€`. -/
lemma markerEUR_occ {l r : List Char} (h : markerEUR l = some r) :
    (stripCI ['e', 'u', 'r'] l).isSome = true ∨ '€' ∈ l := by
  rw [markerEUR] at h
  cases h1 : stripCI ['e', 'u', 'r'] l with
  | some r1 => exact Or.inl (by simp [h1])
  | none =>
    rw [h1] at h
    dsimp only at h
    exact Or.inr (matchSym_mem h)

/-- A successful GBP marker match witnesses `gbp` or `£`. -/
lemma markerGBP_occ {l r : List Char} (h : markerGBP l = some r) :
    (stripCI ['g', 'b', 'p'] l).isSome = true ∨ '£' ∈ l := by
  rw [markerGBP] at h
  cases h1 : stripCI ['g', 'b', 'p'] l with
  | some r1 => exact Or.inl (by simp [h1])
  | none =>
    rw [h1] at h
    dsimp only at h
    exact Or.inr (matchSym_mem h)

/-- A successful CAD marker match witnesses `cad` or `$`. -/
lemma markerCAD_occ {l r : List Char} (h : markerCAD l = some r) :
    (stripCI ['c', 'a', 'd'] l).isSome = true ∨ '$' ∈ l := by
  rw [markerCAD] at h
  cases h1 : stripCI ['c', 'a', 'd'] l with
  | some r1 => exact Or.inl (by simp [h1])
  | none =>
    rw [h1] at h
    dsimp only at h
    refine Or.inr ?_
    cases h2 : stripCI ['c'] l with
    | none => rw [h2] at h; exact Option.noConfusion h
    | some r2 =>
      rw [h2] at h
      exact mem_of_suffix (stripCI_isSuffix h2) (matchSym_mem h)

/-- A successful AUD marker match witnesses `aud` or `$`. -/
lemma markerAUD_occ {l r : List Char} (h : markerAUD l = some r) :
    (stripCI ['a', 'u', 'd'] l).isSome = true ∨ '$' ∈ l := by
  rw [markerAUD] at h
  cases h1 : stripCI ['a', 'u', 'd'] l with
  | some r1 => exact Or.inl (by simp [h1])
  | none =>
    rw [h1] at h
    dsimp only at h
    refine Or.inr ?_
    cases h2 : stripCI ['a'] l with
    | none => rw [h2] at h; exact Option.noConfusion h
    | some r2 =>
      rw [h2] at h
      exact mem_of_suffix (stripCI_isSuffix h2) (matchSym_mem h)

/-- A successful JPY marker match witnesses `jpy` or `¥`. -/
lemma markerJPY_occ {l r : List Char} (h : markerJPY l = some r) :
    (stripCI ['j', 'p', 'y'] l).isSome = true ∨ '¥' ∈ l := by
  rw [markerJPY] at h
  cases h1 : stripCI ['j', 'p', 'y'] l with
  | some r1 => exact Or.inl (by simp [h1])
  | none =>
    rw [h1] at h
    dsimp only at h
    exact Or.inr (matchSym_mem h)

/-- A case-insensitive occurrence of one of the six currency codes makes
`hasMarker` true. -/
lemma hasMarker_of_containsCI {l pat : List Char}
    (hpat : pat ∈ [['u', 's', 'd'], ['e', 'u', 'r'], ['g', 'b', 'p'],
      ['c', 'a', 'd'], ['a', 'u', 'd'], ['j', 'p', 'y']])
    (hc : containsCI pat l = true) : hasMarker l = true := by
  rw [hasMarker]
  simp only [List.mem_cons, List.not_mem_nil, or_false] at hpat
  rcases hpat with h | h | h | h | h | h
  all_goals subst h
  all_goals rw [hc]
  all_goals simp

/-- A currency sign character in the text makes `hasMarker` true. -/
lemma hasMarker_of_sym {l : List Char} {c : Char}
    (hcsym : (c == '$' || c == '€' || c == '£' || c == '¥') = true)
    (hm : c ∈ l) : hasMarker l = true := by
  rw [hasMarker, List.any_eq_true.mpr ⟨c, hm, hcsym⟩]
  simp

/-- Text with no recognized currency marker is not parsed: every pattern's
search fails, so `parse_price_any` returns `None`. -/
lemma parse_none_of_noMarker {s : String} (h : hasMarker s.data = false) :
    parse_price_any s = none := by
  have key : ∀ (mk : List Char → Option (List Char)) (wf : Bool),
      (∀ l' r, l' <:+ s.data → mk l' = some r → hasMarker s.data = true) →
      searchPat mk wf s.data = none := by
    intro mk wf hocc
    cases hsp : searchPat mk wf s.data with
    | none => rfl
    | some g =>
      obtain ⟨l', r, hsuf, hmk, _⟩ := searchPat_inv hsp
      have hM := hocc l' r hsuf hmk
      rw [h] at hM
      exact Bool.noConfusion hM
  have husd := key markerUSD true (fun l' r hsuf hmk => by
    rcases markerUSD_occ hmk with hstrip | hmem
    · exact hasMarker_of_containsCI (by decide)
        (containsCI_suffix hsuf (containsCI_zero hstrip))
    · exact hasMarker_of_sym (by decide) (mem_of_suffix hsuf hmem))
  have heur := key markerEUR true (fun l' r hsuf hmk => by
    rcases markerEUR_occ hmk with hstrip | hmem
    · exact hasMarker_of_containsCI (by decide)
        (containsCI_suffix hsuf (containsCI_zero hstrip))
    · exact hasMarker_of_sym (by decide) (mem_of_suffix hsuf hmem))
  have hgbp := key markerGBP true (fun l' r hsuf hmk => by
    rcases markerGBP_occ hmk with hstrip | hmem
    · exact hasMarker_of_containsCI (by decide)
        (containsCI_suffix hsuf (containsCI_zero hstrip))
    · exact hasMarker_of_sym (by decide) (mem_of_suffix hsuf hmem))
  have hcad := key markerCAD true (fun l' r hsuf hmk => by
    rcases markerCAD_occ hmk with hstrip | hmem
    · exact hasMarker_of_containsCI (by decide)
        (containsCI_suffix hsuf (containsCI_zero hstrip))
    · exact hasMarker_of_sym (by decide) (mem_of_suffix hsuf hmem))
  have haud := key markerAUD true (fun l' r hsuf hmk => by
    rcases markerAUD_occ hmk with hstrip | hmem
    · exact hasMarker_of_containsCI (by decide)
        (containsCI_suffix hsuf (containsCI_zero hstrip))
    · exact hasMarker_of_sym (by decide) (mem_of_suffix hsuf hmem))
  have hjpy := key markerJPY false (fun l' r hsuf hmk => by
    rcases markerJPY_occ hmk with hstrip | hmem
    · exact hasMarker_of_containsCI (by decide)
        (containsCI_suffix hsuf (containsCI_zero hstrip))
    · exact hasMarker_of_sym (by decide) (mem_of_suffix hsuf hmem))
  have pw : ∀ (mk : List Char → Option (List Char)) (wf : Bool)
      (cur : String), searchPat mk wf s.data = none →
      parseWith mk wf cur s.data = none := by
    intro mk wf cur hsp
    rw [parseWith, hsp]
  by_cases hnil : s.data = []
  · rw [parse_price_any, if_pos hnil]
  · rw [parse_price_any, if_neg hnil, pw _ _ _ husd, pw _ _ _ heur,
      pw _ _ _ hgbp, pw _ _ _ hcad, pw _ _ _ haud, pw _ _ _ hjpy]

/-- `takeWhile` passes over a block that satisfies the test wholesale. -/
lemma takeWhile_append_all {p : Char → Bool} : ∀ (ds rest : List Char),
    (∀ x ∈ ds, p x = true) →
    (ds ++ rest).takeWhile p = ds ++ rest.takeWhile p := by
  intro ds
  induction ds with
  | nil => intro rest _; simp
  | cons d t ih =>
    intro rest hall
    have hd : p d = true := hall d (List.mem_cons_self d t)
    simp only [List.cons_append, List.takeWhile_cons, hd]
    rw [ih rest (fun x hx => hall x (List.mem_cons_of_mem d hx))]
    simp

/-- `dropWhile` consumes a block that satisfies the test wholesale. -/
lemma dropWhile_append_all {p : Char → Bool} : ∀ (ds rest : List Char),
    (∀ x ∈ ds, p x = true) →
    (ds ++ rest).dropWhile p = rest.dropWhile p := by
  intro ds
  induction ds with
  | nil => intro rest _; simp
  | cons d t ih =>
    intro rest hall
    have hd : p d = true := hall d (List.mem_cons_self d t)
    simp only [List.cons_append, List.dropWhile_cons, hd]
    exact ih rest (fun x hx => hall x (List.mem_cons_of_mem d hx))

/-- Elements surviving `takeWhile` satisfy the test. -/
lemma mem_takeWhile {p : Char → Bool} : ∀ {l : List Char} {x : Char},
    x ∈ l.takeWhile p → p x = true := by
  intro l
  induction l with
  | nil => intro x h; exact absurd h (List.not_mem_nil x)
  | cons c t ih =>
    intro x h
    rw [List.takeWhile_cons] at h
    by_cases hc : p c = true
    · rw [if_pos hc] at h
      rcases List.mem_cons.mp h with rfl | h2
      · exact hc
      · exact ih h2
    · rw [if_neg hc] at h
      exact absurd h (List.not_mem_nil x)

/-- Shape of the captured amount: a digit, then digits and commas, then
optionally a dot and exactly two digits. -/
lemma matchAmount_shape {wf : Bool} {l g : List Char}
    (h : matchAmount wf l = some g) :
    ∃ c body frac, g = c :: (body ++ frac) ∧ c.isDigit = true ∧
      (∀ x ∈ body, isDigitOrComma x = true) ∧
      (frac = [] ∨ ∃ d1 d2, frac = ['.', d1, d2] ∧
        d1.isDigit = true ∧ d2.isDigit = true) := by
  cases l with
  | nil => exact Option.noConfusion h
  | cons c cs =>
    rw [matchAmount] at h
    by_cases hc : c.isDigit = true
    · rw [if_pos hc] at h
      dsimp only at h
      have hbody : ∀ x ∈ cs.takeWhile isDigitOrComma, isDigitOrComma x = true :=
        fun x hx => mem_takeWhile hx
      cases wf with
      | false =>
        rw [if_neg (by decide)] at h
        injection h with h
        exact ⟨c, cs.takeWhile isDigitOrComma, [], by simp [← h], hc, hbody,
          Or.inl rfl⟩
      | true =>
        rw [if_pos rfl] at h
        split at h
        · next d1 d2 tail heq =>
          by_cases hd : (d1.isDigit && d2.isDigit) = true
          · rw [if_pos hd] at h
            injection h with h
            rw [Bool.and_eq_true] at hd
            refine ⟨c, cs.takeWhile isDigitOrComma, ['.', d1, d2], ?_, hc,
              hbody, Or.inr ⟨d1, d2, rfl, hd.1, hd.2⟩⟩
            rw [← h]
            simp
          · rw [if_neg hd] at h
            injection h with h
            exact ⟨c, cs.takeWhile isDigitOrComma, [], by simp [← h], hc,
              hbody, Or.inl rfl⟩
        · next heq =>
          injection h with h
          exact ⟨c, cs.takeWhile isDigitOrComma, [], by simp [← h], hc,
            hbody, Or.inl rfl⟩
    · rw [if_neg hc] at h
      exact Option.noConfusion h

/-- `float()` succeeds on a non-empty digit run followed by an optional
two-digit decimal fraction. -/
lemma pyFloat_isSome {ds frac : List Char} (hne : ds ≠ [])
    (hds : ∀ x ∈ ds, x.isDigit = true)
    (hfrac : frac = [] ∨ ∃ d1 d2, frac = ['.', d1, d2] ∧
      d1.isDigit = true ∧ d2.isDigit = true) :
    (pyFloat (ds ++ frac)).isSome = true := by
  have h1 : ∀ rest : List Char, List.takeWhile Char.isDigit (ds ++ rest) =
      ds ++ List.takeWhile Char.isDigit rest :=
    fun rest => takeWhile_append_all ds rest hds
  have h2 : ∀ rest : List Char, List.dropWhile Char.isDigit (ds ++ rest) =
      List.dropWhile Char.isDigit rest :=
    fun rest => dropWhile_append_all ds rest hds
  rcases hfrac with rfl | ⟨d1, d2, rfl, hd1, hd2⟩
  · rw [pyFloat, h1, h2, List.takeWhile_nil, List.dropWhile_nil]
    dsimp only
    rw [List.append_nil]
    rw [if_neg (by simpa [List.isEmpty_iff] using hne)]
    simp
  · have ht : List.takeWhile Char.isDigit ('.' :: d1 :: d2 :: []) = [] := by
      rw [List.takeWhile_cons, if_neg (by decide)]
    have hdr : List.dropWhile Char.isDigit ('.' :: d1 :: d2 :: []) =
        '.' :: d1 :: d2 :: [] := by
      rw [List.dropWhile_cons, if_neg (by decide)]
    rw [pyFloat, h1, h2, ht, hdr, List.append_nil]
    dsimp only
    rw [if_pos rfl]
    rw [if_pos (by simp [hd1, hd2, List.isEmpty_iff, hne])]
    simp

/-- A digit character is not a comma. -/
lemma digit_not_comma {c : Char} (hc : c.isDigit = true) :
    (!(c == ',')) = true := by
  have hne : c ≠ ',' := fun hcc => by
    rw [hcc] at hc; exact absurd hc (by decide)
  simp [hne]

/-- Whatever pattern matched, the amount of the result dictionary is
numeric: the captured group, with commas removed, is always accepted by
`float()`. -/
lemma parseWith_amount_num {mk : List Char → Option (List Char)} {wf : Bool}
    {cur : String} {l : List Char} {r : ParsedPrice}
    (h : parseWith mk wf cur l = some r) : ∃ q, r.amount = Amount.num q := by
  rw [parseWith] at h
  cases hs : searchPat mk wf l with
  | none => rw [hs] at h; exact Option.noConfusion h
  | some g =>
    rw [hs] at h
    dsimp only at h
    obtain ⟨l', r', hsuf, hmk, hma⟩ := searchPat_inv hs
    obtain ⟨c, body, frac, hg, hc, hbody, hfrac⟩ := matchAmount_shape hma
    subst hg
    have hfracfilter : frac.filter (fun x => !(x == ',')) = frac := by
      rcases hfrac with rfl | ⟨d1, d2, rfl, hd1, hd2⟩
      · rfl
      · rw [List.filter_cons, List.filter_cons, List.filter_cons]
        rw [if_pos (by decide), if_pos (digit_not_comma hd1),
          if_pos (digit_not_comma hd2)]
        rfl
    have hfilter : (c :: (body ++ frac)).filter (fun x => !(x == ',')) =
        c :: (body.filter (fun x => !(x == ',')) ++ frac) := by
      rw [List.filter_cons, if_pos (digit_not_comma hc), List.filter_append,
        hfracfilter]
    rw [hfilter] at h
    have hnum : (pyFloat (c :: (body.filter (fun x => !(x == ',')) ++ frac))).isSome
        = true := by
      show (pyFloat ((c :: body.filter (fun x => !(x == ','))) ++ frac)).isSome
        = true
      apply pyFloat_isSome
      · simp
      · intro x hx
        rcases List.mem_cons.mp hx with rfl | hx2
        · exact hc
        · have hmem := List.mem_filter.mp hx2
          have hdc : isDigitOrComma x = true := hbody x hmem.1
          rw [isDigitOrComma, Bool.or_eq_true] at hdc
          rcases hdc with hx3 | hx3
          · exact hx3
          · have hne := hmem.2
            rw [hx3] at hne
            exact absurd hne (by decide)
      · exact hfrac
    cases hp : pyFloat (c :: (body.filter (fun x => !(x == ',')) ++ frac)) with
    | none => rw [hp] at hnum; exact Bool.noConfusion hnum
    | some q =>
      rw [hp] at h
      dsimp only at h
      injection h with h
      exact ⟨q, by rw [← h]⟩

/-- Any result of `parse_price_any` has a numeric amount: the `ValueError`
fallback branch is unreachable. -/
lemma parse_amount_num {s : String} {r : ParsedPrice}
    (h : parse_price_any s = some r) : ∃ q, r.amount = Amount.num q := by
  rw [parse_price_any] at h
  by_cases hnil : s.data = []
  · rw [if_pos hnil] at h; exact Option.noConfusion h
  · rw [if_neg hnil] at h
    cases h1 : parseWith markerUSD true "USD" s.data with
    | some r1 =>
      rw [h1] at h; dsimp only at h; injection h with h
      exact h ▸ parseWith_amount_num h1
    | none =>
    rw [h1] at h; dsimp only at h
    cases h2 : parseWith markerEUR true "EUR" s.data with
    | some r2 =>
      rw [h2] at h; dsimp only at h; injection h with h
      exact h ▸ parseWith_amount_num h2
    | none =>
    rw [h2] at h; dsimp only at h
    cases h3 : parseWith markerGBP true "GBP" s.data with
    | some r3 =>
      rw [h3] at h; dsimp only at h; injection h with h
      exact h ▸ parseWith_amount_num h3
    | none =>
    rw [h3] at h; dsimp only at h
    cases h4 : parseWith markerCAD true "CAD" s.data with
    | some r4 =>
      rw [h4] at h; dsimp only at h; injection h with h
      exact h ▸ parseWith_amount_num h4
    | none =>
    rw [h4] at h; dsimp only at h
    cases h5 : parseWith markerAUD true "AUD" s.data with
    | some r5 =>
      rw [h5] at h; dsimp only at h; injection h with h
      exact h ▸ parseWith_amount_num h5
    | none =>
    rw [h5] at h; dsimp only at h
    cases h6 : parseWith markerJPY false "JPY" s.data with
    | some r6 =>
      rw [h6] at h; dsimp only at h; injection h with h
      exact h ▸ parseWith_amount_num h6
    | none =>
    rw [h6] at h; dsimp only at h
    exact Option.noConfusion h

/-- Shaping preserves the number of listings. -/
lemma shapeListingsFrom_length : ∀ (n : Nat) (l : List AnnListing),
    (shapeListingsFrom n l).length = l.length := by
  intro n l
  induction l generalizing n with
  | nil => rfl
  | cons r t ih => simp [shapeListingsFrom, ih]

/-- The `id` of the `i`-th shaped listing is the decimal form of the
position counter plus `i`. -/
lemma shapeListingsFrom_get : ∀ (n : Nat) (l : List AnnListing) (i : Nat)
    (h : i < (shapeListingsFrom n l).length),
    ((shapeListingsFrom n l).get ⟨i, h⟩).id = toString (n + i) := by
  intro n l
  induction l generalizing n with
  | nil =>
    intro i h
    exact absurd h (by simp [shapeListingsFrom])
  | cons r t ih =>
    intro i h
    cases i with
    | zero => simp [shapeListingsFrom]
    | succ j =>
      have hj : j < (shapeListingsFrom (n + 1) t).length := by
        have := h
        simp only [shapeListingsFrom, List.length_cons] at this
        omega
      have := ih (n + 1) j hj
      simp only [shapeListingsFrom, List.get_cons_succ]
      rw [this]
      congr 1
      omega

/-- The degraded-path error string is never empty. -/
lemma searchErrMsg_ne_empty (e : PyExc) : LuxuryPipeline.searchErrMsg e ≠ "" := by
  intro hcontra
  have hl := congrArg String.length hcontra
  rw [LuxuryPipeline.searchErrMsg] at hl
  rw [String.length_append, String.length_append, String.length_append] at hl
  have h0 : ("web_search unavailable or failed: ").length = 34 := rfl
  have h1 : (": ").length = 2 := rfl
  have h2 : ("").length = 0 := rfl
  omega

/-- C1: for every identification result and every exception raised by the
remote listings call (or by parsing its output), `search_listings` does not
raise: it returns the locally constructed query list as `queries_used`, an
empty results list, and a non-empty error string carrying the exception type
and message. -/
theorem claim_C1 : ∀ (ident : Ident) (e : PyExc),
    LuxuryPipeline.search_listings ident (Except.error e) =
      { queries_used := LuxuryPipeline.build_queries ident, results := [],
        error := some (LuxuryPipeline.searchErrMsg e) } ∧
    LuxuryPipeline.searchErrMsg e ≠ "" :=
  fun _ e => ⟨rfl, searchErrMsg_ne_empty e⟩

/-- C2 counterexample: the claim says the EUR pattern does not match
`"€2.000,00"`-style European text; in fact the pattern does match it (its
search succeeds, capturing `2.00`) and the parser returns an EUR
currency/amount result for it. -/
theorem claim_C2_counterexample :
    searchPat markerEUR true ("€2.000,00".data) ≠ none ∧
    parse_price_any "€2.000,00" = some ⟨"EUR", Amount.num 2⟩ :=
  ⟨by decide, by decide⟩

/-- C2 (amended): the EUR pattern does match European dot-grouped text such
as `"€2.000,00"`, but only partially — it captures the digits before the
first dot together with the following two digits as a decimal fraction,
yielding amount 2; only comma-grouped/dot-decimal western format (e.g.
`"€2,000.00"`) is parsed to its full value. -/
theorem claim_C2 :
    parse_price_any "€2.000,00" = some ⟨"EUR", Amount.num 2⟩ ∧
    parse_price_any "€2,000.00" = some ⟨"EUR", Amount.num 2000⟩ :=
  ⟨by decide, by decide⟩

/-- C3: query construction is a pure function of the identification result:
deterministic and idempotent, at most 10 queries, no falsy (empty) entries,
at most 3 fallback queries, and every query comes from the first 8
provider-suggested queries or from the fallbacks. -/
theorem claim_C3 : ∀ ident : Ident,
    LuxuryPipeline.build_queries ident = LuxuryPipeline.build_queries ident ∧
    (LuxuryPipeline.build_queries ident).length ≤ 10 ∧
    (∀ q ∈ LuxuryPipeline.build_queries ident, q ≠ "") ∧
    (LuxuryPipeline.fallback_queries ident).length ≤ 3 ∧
    (∀ q ∈ LuxuryPipeline.build_queries ident,
      q ∈ ident.suggested_queries.take 8 ∨
        q ∈ LuxuryPipeline.fallback_queries ident) := by
  intro ident
  refine ⟨rfl, ?_, ?_, ?_, ?_⟩
  · rw [LuxuryPipeline.build_queries]
    exact List.length_take_le _ _
  · intro q hq
    rw [LuxuryPipeline.build_queries] at hq
    have h1 := List.mem_of_mem_take hq
    have h2 := List.mem_filter.mp h1
    simpa using h2.2
  · cases h : ident.aliases with
    | nil => simp [LuxuryPipeline.fallback_queries, h]
    | cons a t => simp [LuxuryPipeline.fallback_queries, h]
  · intro q hq
    rw [LuxuryPipeline.build_queries] at hq
    have h1 := List.mem_of_mem_take hq
    have h2 := (List.mem_filter.mp h1).1
    exact List.mem_append.mp h2

/-- C3 witness: the properties instantiated on a concrete identification
result whose suggested queries include a falsy entry. -/
theorem claim_C3_witness :
    (LuxuryPipeline.build_queries sampleIdent).length ≤ 10 ∧
    "chanel classic flap price" ≠ "" :=
  ⟨(claim_C3 sampleIdent).2.1,
   (claim_C3 sampleIdent).2.2.1 "chanel classic flap price" (by decide)⟩

/-- C4: pattern order is priority order — whenever the USD pattern matches a
text, the parser reports USD, so a text containing both a USD marker and an
EUR marker yields USD regardless of which marker occurs first. -/
theorem claim_C4 :
    (∀ (s : String) (g : List Char),
      searchPat markerUSD true s.data = some g →
      ∃ a, parse_price_any s = some ⟨"USD", a⟩) ∧
    parse_price_any "$10 / €9" = some ⟨"USD", Amount.num 10⟩ ∧
    parse_price_any "€9 / $10" = some ⟨"USD", Amount.num 10⟩ :=
  ⟨fun s g h => parse_usd_of_search h, by decide, by decide⟩

/-- C4 witness: the USD-first property applied at a concrete input. -/
theorem claim_C4_witness : ∃ a, parse_price_any "z $7" = some ⟨"USD", a⟩ :=
  claim_C4.1 "z $7" ['7'] (by decide)

/-- C5: `"$1,234.56"` parses to USD 1234.56, `"¥5000"` parses to JPY 5000,
and the empty string or any text without a recognized currency marker yields
no match. -/
theorem claim_C5 :
    parse_price_any "$1,234.56" = some ⟨"USD", Amount.num (1234.56 : ℚ)⟩ ∧
    parse_price_any "¥5000" = some ⟨"JPY", Amount.num 5000⟩ ∧
    parse_price_any "" = none ∧
    (∀ s : String, hasMarker s.data = false → parse_price_any s = none) := by
  refine ⟨?_, by decide, by decide, fun s h => parse_none_of_noMarker h⟩
  have hq : (1234.56 : ℚ) = Rat.divInt 123456 100 := by
    rw [Rat.divInt_eq_div]; norm_num
  rw [hq]
  decide

/-- C5 witness: the no-marker case applied at a concrete input. -/
theorem claim_C5_witness :
    hasMarker ("hello world".data) = false ∧
    parse_price_any "hello world" = none :=
  ⟨by decide, claim_C5.2.2.2 "hello world" (by decide)⟩

/-- C6: every successful request's response carries the identification's
estimated market value as `predicted_price`, the fixed currency `"USD"`, the
identification's confidence, and one `similar_listings` entry per listing
returned by the search step, the `i`-th having id `toString i`. -/
theorem claim_C6 : ∀ (ct : Option String) (identR : Except PyExc Ident)
    (searchR : Except PyExc RawListings) (resp : FrontResp),
    (predict ct identR searchR).2 = Except.ok resp →
    ∃ ident, identR = Except.ok ident ∧
      resp.predicted_price = ident.estimated_market_value_usd ∧
      resp.currency = "USD" ∧
      resp.confidence = ident.confidence ∧
      resp.similar_listings.length =
        (LuxuryPipeline.search_listings ident searchR).results.length ∧
      (∀ i : Nat, ∀ h : i < resp.similar_listings.length,
        (resp.similar_listings.get ⟨i, h⟩).id = toString i) := by
  intro ct identR searchR resp h
  rw [predict] at h
  by_cases hct : acceptCT ct = true
  · rw [if_pos hct] at h
    cases identR with
    | error e =>
      rw [LuxuryPipeline.run] at h
      dsimp only at h
      exact Except.noConfusion h
    | ok ident =>
      rw [LuxuryPipeline.run] at h
      dsimp only at h
      injection h with h
      refine ⟨ident, rfl, ?_, ?_, ?_, ?_, ?_⟩ <;> rw [← h]
      · exact shapeListingsFrom_length 0 _
      · intro i hi
        have := shapeListingsFrom_get 0 _ i hi
        simpa using this
  · rw [if_neg hct] at h
    dsimp only at h
    exact Except.noConfusion h

/-- C6 witness: the response-shape property applied to a concrete successful
run whose listings call failed. -/
theorem claim_C6_witness :
    ∃ ident, (Except.ok sampleIdent : Except PyExc Ident) = Except.ok ident ∧
      sampleResp.predicted_price = ident.estimated_market_value_usd ∧
      sampleResp.currency = "USD" ∧
      sampleResp.confidence = ident.confidence ∧
      sampleResp.similar_listings.length =
        (LuxuryPipeline.search_listings ident (Except.error sampleExc)).results.length ∧
      (∀ i : Nat, ∀ h : i < sampleResp.similar_listings.length,
        (sampleResp.similar_listings.get ⟨i, h⟩).id = toString i) :=
  claim_C6 (some "image/png") (Except.ok sampleIdent) (Except.error sampleExc)
    sampleResp rfl

/-- C7: failure handling is asymmetric — an identification failure
propagates unhandled out of `run` (fatal to the request), a listings failure
still completes the request with degraded listings, and an unhandled
exception escaping `predict` can only be the identification's. -/
theorem claim_C7 :
    (∀ (e : PyExc) (searchR : Except PyExc RawListings),
      LuxuryPipeline.run (Except.error e) searchR = Except.error e) ∧
    (∀ (ident : Ident) (e : PyExc),
      ∃ out, LuxuryPipeline.run (Except.ok ident) (Except.error e) =
          Except.ok out ∧
        out.listings.results = [] ∧ out.listings.error ≠ none) ∧
    (∀ (ct : Option String) (identR : Except PyExc Ident)
      (searchR : Except PyExc RawListings) (e : PyExc),
      (predict ct identR searchR).2 = Except.error (PredictErr.exc e) →
      identR = Except.error e) := by
  refine ⟨fun e searchR => rfl, ?_, ?_⟩
  · intro ident e
    exact ⟨⟨ident, LuxuryPipeline.search_listings ident (Except.error e)⟩,
      rfl, rfl, Option.some_ne_none _⟩
  · intro ct identR searchR e h
    rw [predict] at h
    by_cases hct : acceptCT ct = true
    · rw [if_pos hct] at h
      cases identR with
      | error e2 =>
        rw [LuxuryPipeline.run] at h
        dsimp only at h
        injection h with h
        injection h with h
        rw [h]
      | ok ident =>
        rw [LuxuryPipeline.run] at h
        dsimp only at h
        exact Except.noConfusion h
    · rw [if_neg hct] at h
      dsimp only at h
      injection h with h
      exact PredictErr.noConfusion h

/-- C7 witness: the asymmetry instantiated on concrete inputs. -/
theorem claim_C7_witness :
    LuxuryPipeline.run (Except.error sampleExc) (Except.ok sampleRawListings) =
      Except.error sampleExc ∧
    (∃ out, LuxuryPipeline.run (Except.ok sampleIdent)
        (Except.error sampleExc) = Except.ok out ∧
      out.listings.results = [] ∧ out.listings.error ≠ none) ∧
    (Except.error sampleExc : Except PyExc Ident) = Except.error sampleExc :=
  ⟨claim_C7.1 sampleExc (Except.ok sampleRawListings),
   claim_C7.2.1 sampleIdent sampleExc,
   claim_C7.2.2 (some "image/png") (Except.error sampleExc)
     (Except.ok sampleRawListings) sampleExc rfl⟩

/-- C8: an upload whose declared content type is absent or does not start
with `image/` is rejected with HTTP 400 before any effect: the body is not
read and no remote call is performed (the effect trace is empty). -/
theorem claim_C8 : ∀ (ct : Option String) (identR : Except PyExc Ident)
    (searchR : Except PyExc RawListings),
    (ct = none ∨ ∃ s, ct = some s ∧ pyStartsWith s "image/" = false) →
    predict ct identR searchR =
      ([], Except.error (PredictErr.http 400 "Upload an image file.")) := by
  intro ct identR searchR h
  have hct : acceptCT ct = false := by
    rcases h with rfl | ⟨s, rfl, hs⟩
    · rfl
    · rw [acceptCT, hs]
      simp
  rw [predict, hct]
  rw [if_neg (by decide)]

/-- C8 witness: a non-image upload is rejected with the 400 error and an
empty effect trace. -/
theorem claim_C8_witness :
    predict (some "text/plain") (Except.ok sampleIdent)
        (Except.ok sampleRawListings) =
      ([], Except.error (PredictErr.http 400 "Upload an image file.")) :=
  claim_C8 _ _ _ (Or.inr ⟨"text/plain", rfl, by decide⟩)

/-- C9: the raw-string fallback branch of the price parser is unreachable:
every returned currency/amount pair has a numeric amount, because the
captured group with commas removed is always accepted by `float()`. -/
theorem claim_C9 : ∀ (s : String) (r : ParsedPrice),
    parse_price_any s = some r → ∃ q, r.amount = Amount.num q :=
  fun _ _ h => parse_amount_num h

/-- C9 witness: the numeric-amount property applied at a concrete input. -/
theorem claim_C9_witness :
    ∃ q, (ParsedPrice.mk "USD" (Amount.num 5)).amount = Amount.num q :=
  claim_C9 "$5" ⟨"USD", Amount.num 5⟩ (by decide)

/-- C10: because the bare `$` alternative of the USD pattern is tried before
the CAD and AUD patterns, any text with a dollar sign followed by an amount
— including `"C$10"` and `"A$10"` — parses as USD; CAD/AUD results arise
only from spelled-out `CAD`/`AUD` with no dollar-sign-plus-amount
occurrence. -/
theorem claim_C10 :
    (∀ s : String, hasDollarAmount s.data = true →
      ∃ a, parse_price_any s = some ⟨"USD", a⟩) ∧
    parse_price_any "C$10" = some ⟨"USD", Amount.num 10⟩ ∧
    parse_price_any "A$10" = some ⟨"USD", Amount.num 10⟩ ∧
    parse_price_any "CAD 10" = some ⟨"CAD", Amount.num 10⟩ ∧
    parse_price_any "AUD 10" = some ⟨"AUD", Amount.num 10⟩ :=
  ⟨fun s h => parse_usd_of_dollarAmount h, by decide, by decide, by decide,
   by decide⟩

/-- C10 witness: the dollar-sign-wins property applied at `"C$10"`. -/
theorem claim_C10_witness : ∃ a, parse_price_any "C$10" = some ⟨"USD", a⟩ :=
  claim_C10.1 "C$10" (by decide)
